import Mathlib

/-!
Verification development for the stock-viewer ingestion core.

The TypeScript source is embedded shallowly:

* JavaScript numbers are modelled exactly over `ℚ` (every arithmetic
  operation the embedded functions perform — comparison, multiplication by
  10000, division by 100 — is exact on the values of interest).
* A positional wire field (one slot of `split('~')` / `split(',')`) is
  modelled by `JSField`: the raw string together with the value JavaScript
  `parseFloat` yields on it (`none` models `NaN`).  A missing array slot
  (`parts[i]` = `undefined`) is modelled by the empty field, which behaves
  identically to it under the only operations the source applies to fields
  (truthiness and `parseFloat`-with-`|| default`).
* A zero-argument asynchronous task is modelled by its outcome
  (`Except Unit (Option β)`): rejection/throw, or resolution to a
  JavaScript value where `none` models the JS value `null`.
-/

namespace StockViewer

/-! ### The bounded-concurrency batch executor (src/utils.ts, `executeConcurrent`)

The source runs `Math.min(concurrency, tasks.length)` cooperative workers
that pull indices from a shared cursor.  JavaScript is single-threaded and
`currentIndex++` contains no await point, so when at least one worker
exists every index `0 … tasks.length - 1` is claimed exactly once, and
`results[index]` is determined solely by task `index`'s outcome:
the resolved value on success and the JS value `null` (`results[index] =
null as any`) on a caught rejection.  The returned array is
`results.filter(r => r !== null)`, i.e. the non-null slots in index order —
independent of the interleaving.  With zero workers (possible only when
the task list is empty or the concurrency cap is zero) no slot is ever
written and the filter of the empty/sparse array is empty. -/

/-- Outcome of one zero-argument asynchronous task: `Except.error ()` models a
throw or rejection, `Except.ok v` models resolution to the JS value `v`,
where `none` models the JS value `null`. -/
def JSTask (β : Type) : Type := Except Unit (Option β)

/-- Value left in `results[index]` by the worker loop of `executeConcurrent`:
the resolved JS value on success, JS `null` (`none`) on a caught failure. -/
def slotValue {β : Type} (t : JSTask β) : Option β :=
  match t with
  | Except.error _ => none
  | Except.ok v => v

/-- Embedding of `executeConcurrent` (src/utils.ts lines 581-601): the
results array indexed by task, with `null` in failed slots, filtered to its
non-null entries. -/
def executeConcurrent {β : Type} (tasks : List (JSTask β)) (concurrency : Nat) :
    List β :=
  if Nat.min concurrency tasks.length = 0 then []
  else (tasks.map slotValue).filterMap id

/-- Modelled from the claim's words, for comparison with the code: the
"successful results" — the resolved values of the tasks that did not
throw or reject, in original submission order (`none` is a resolved JS
`null`). -/
def resolvedValues {β : Type} (tasks : List (JSTask β)) : List (Option β) :=
  tasks.filterMap (fun t =>
    match t with
    | Except.ok v => some v
    | Except.error _ => none)

/-! ### The wall-clock market session gate (src/utils.ts, `isMarketOpen`)

The source reads the current local time; the embedding takes the
`Date` components the source extracts (`getDay()`, `getHours()`,
`getMinutes()`) as arguments. -/

/-- Embedding of `isMarketOpen` (src/utils.ts lines 632-656) as a function of
the local day-of-week (0 = Sunday … 6 = Saturday), hour and minute. -/
def isMarketOpen (day hours minutes : Nat) : Bool :=
  if day = 0 ∨ day = 6 then false
  else
    let time := hours * 100 + minutes
    if 930 ≤ time ∧ time ≤ 1130 then true
    else if 1300 ≤ time ∧ time ≤ 1500 then true
    else false

/-! ### Wire fields and the unit/value normalizer (src/stockDataService.ts) -/

/-- One positional wire field: the raw string (empty for a missing slot) and
the value JavaScript `parseFloat` yields on it (`none` models `NaN`). -/
structure JSField where
  str : String
  num : Option ℚ
  deriving DecidableEq

/-- The field modelling a missing array slot (`undefined`) or an empty
string: falsy, and `parseFloat` yields `NaN` on it. -/
def emptyField : JSField := ⟨"", none⟩

/-- Well-formedness tying the two components together: `parseFloat` of the
empty string is `NaN` (real wire fields always satisfy this). -/
def JSField.WF (f : JSField) : Prop := f.str = "" → f.num = none

/-- Array access `parts[i]`, with the missing slot modelled by
`emptyField`. -/
def fieldAt (parts : List JSField) (i : Nat) : JSField :=
  parts.getD i emptyField

/-- Embedding of `parseFloat(…) || d`: `NaN` and `0` are falsy, any other
parse result is used as is. -/
def jsOrNum (f : JSField) (d : ℚ) : ℚ :=
  match f.num with
  | none => d
  | some q => if q = 0 then d else q

/-- Embedding of the string fallback `s || d`. -/
def jsOrStr (s d : String) : String :=
  if s = "" then d else s

/-- Embedding of `extractVolume` (src/stockDataService.ts lines 92-111):
prefer field 6 when truthy (non-empty), else field 36; the instrument-class
flags are accepted but unused — no scaling is applied for any class. -/
def extractVolume (parts : List JSField) (isHKStock isUSStock : Bool) : ℚ :=
  if (fieldAt parts 6).str ≠ "" then jsOrNum (fieldAt parts 6) 0
  else if (fieldAt parts 36).str ≠ "" then jsOrNum (fieldAt parts 36) 0
  else 0

/-- Embedding of the first stage of `calculateTurnover`
(src/stockDataService.ts lines 113-148), the value the local variable
`turnover` holds before the final estimate fallback: field 37 when it parses
positive (scaled by 10000 for domestic values below 1000), else the first of
fields 7, 10 in `(0, 10^13)` for domestic instruments, else 0. -/
def calculateTurnoverRaw (parts : List JSField) (isHKStock isUSStock : Bool) :
    ℚ :=
  if 0 < jsOrNum (fieldAt parts 37) 0 then
    if isHKStock || isUSStock then jsOrNum (fieldAt parts 37) 0
    else if jsOrNum (fieldAt parts 37) 0 < 1000 then
      jsOrNum (fieldAt parts 37) 0 * 10000
    else jsOrNum (fieldAt parts 37) 0
  else if !isHKStock && !isUSStock then
    if 0 < jsOrNum (fieldAt parts 7) 0 ∧
        jsOrNum (fieldAt parts 7) 0 < 10000000000000 then
      jsOrNum (fieldAt parts 7) 0
    else if 0 < jsOrNum (fieldAt parts 10) 0 ∧
        jsOrNum (fieldAt parts 10) 0 < 10000000000000 then
      jsOrNum (fieldAt parts 10) 0
    else 0
  else 0

/-- Embedding of `calculateTurnover` (src/stockDataService.ts lines 113-162):
the staged value, replaced by the price×volume estimate when it is still 0
and both volume and price are positive. -/
def calculateTurnover (parts : List JSField) (currentPrice volume : ℚ)
    (isHKStock isUSStock : Bool) : ℚ :=
  if calculateTurnoverRaw parts isHKStock isUSStock = 0 ∧ 0 < volume ∧
      0 < currentPrice then
    if isHKStock || isUSStock then volume * currentPrice
    else volume * 100 * currentPrice
  else calculateTurnoverRaw parts isHKStock isUSStock

/-- Embedding of `adjustSinaTurnover` (src/stockDataService.ts lines
242-257): the Dialect A ratio-based turnover correction, with the local
`estimatedTurnover` and `ratio` written out. -/
def adjustSinaTurnover (turnover volume currentPrice : ℚ) : ℚ :=
  if 0 < turnover ∧ 0 < volume ∧ 0 < currentPrice then
    if turnover / (volume * 100 * currentPrice) < 0.1 ∧
        turnover < 100000000 then turnover * 10000
    else if 100 < turnover / (volume * 100 * currentPrice) then turnover / 100
    else turnover
  else if 0 < volume ∧ 0 < currentPrice then volume * 100 * currentPrice
  else turnover

/-! ### Candidate-code generation (src/utils.ts, `generateCodes`)

`generateCodes(prefix, start, end)` runs `for (let i = start; i <= end; i++)
codes.push(prefix + String(i).padStart(6, '0'))`.  JavaScript decimal
number-to-string conversion is embedded by `intStr` (digits with no leading
zero, a leading minus sign for negative integers), `padStart` by
`jsPadStart`.  The loop is embedded with its iteration count as fuel.
The parameter names `prefix` and `end` are Lean keywords/reserved and are
rendered `pfx` and `stop`. -/

/-- Little-endian decimal digits of `n` (structural recursion on fuel;
any fuel at least `n` gives the digits). -/
def natDigitsAux : Nat → Nat → List Nat
  | _, 0 => []
  | 0, _ + 1 => []
  | fuel + 1, n + 1 => ((n + 1) % 10) :: natDigitsAux fuel ((n + 1) / 10)

/-- Little-endian decimal digits of `n`. -/
def natDigits (n : Nat) : List Nat := natDigitsAux n n

/-- Value of a little-endian decimal digit list (used only to prove that
taking digits is injective). -/
def ofDigits : List Nat → Nat
  | [] => 0
  | d :: ds => d + 10 * ofDigits ds

/-- Character for one decimal digit. -/
def digitChar : Nat → Char
  | 0 => '0'
  | 1 => '1'
  | 2 => '2'
  | 3 => '3'
  | 4 => '4'
  | 5 => '5'
  | 6 => '6'
  | 7 => '7'
  | 8 => '8'
  | 9 => '9'
  | _ => '*'

/-- Embedding of JavaScript `String(n)` for a non-negative integer. -/
def natStr (n : Nat) : String :=
  if n = 0 then "0" else String.mk ((natDigits n).reverse.map digitChar)

/-- Embedding of JavaScript `String(i)` for an integer. -/
def intStr : Int → String
  | Int.ofNat n => natStr n
  | Int.negSucc n => "-" ++ natStr (n + 1)

/-- Embedding of JavaScript `s.padStart(len, c)`. -/
def jsPadStart (s : String) (len : Nat) (c : Char) : String :=
  String.mk (List.replicate (len - s.data.length) c ++ s.data)

/-- One generated code: the prefix followed by `String(i).padStart(6, '0')`. -/
def formatCode (pfx : String) (i : Int) : String :=
  pfx ++ jsPadStart (intStr i) 6 '0'

/-- The `for (let i = start; i <= end; i++)` loop of `generateCodes`, with
the number of remaining iterations as fuel. -/
def generateCodesLoop (pfx : String) : Nat → Int → List String
  | 0, _ => []
  | fuel + 1, i => formatCode pfx i :: generateCodesLoop pfx fuel (i + 1)

/-- Embedding of `generateCodes` (src/utils.ts lines 567-573). -/
def generateCodes (pfx : String) (start stop : Int) : List String :=
  generateCodesLoop pfx (stop + 1 - start).toNat start

/-- Strip the zero padding back off a padded character list (used only to
prove that padded codes are distinct). -/
def recoverChars (l : List Char) : List Char :=
  if (l.dropWhile (fun c => c == '0')) = [] then ['0']
  else l.dropWhile (fun c => c == '0')

/-! ### String primitives shared by the parsers and the canonicalizer

`jsToLower` embeds `toLowerCase`, `jsTrim` embeds `trim`, `jsIncludes`
embeds `includes`, `jsStartsWith` embeds `startsWith`, `jsSubstringFrom`
embeds one-argument `substring`.  `jsLowerChar` and `wsChar` agree with
JavaScript on the character ranges the embedded code can encounter
(ASCII case mapping; the common whitespace characters). -/

/-- Lower-case one character (ASCII). -/
def jsLowerChar (c : Char) : Char :=
  if 'A' ≤ c ∧ c ≤ 'Z' then Char.ofNat (c.toNat + 32) else c

/-- Embedding of `s.toLowerCase()`. -/
def jsToLower (s : String) : String :=
  String.mk (s.data.map jsLowerChar)

/-- Whitespace test used by `trim`. -/
def wsChar (c : Char) : Bool :=
  c = ' ' ∨ c = '\t' ∨ c = '\n' ∨ c = '\r'

/-- Strip leading and trailing whitespace from a character list. -/
def trimChars (l : List Char) : List Char :=
  ((l.dropWhile wsChar).reverse.dropWhile wsChar).reverse

/-- Embedding of `s.trim()`. -/
def jsTrim (s : String) : String :=
  String.mk (trimChars s.data)

/-- Substring containment on character lists. -/
def containsSub (sub : List Char) : List Char → Bool
  | [] => sub.isEmpty
  | c :: t => sub.isPrefixOf (c :: t) || containsSub sub t

/-- Embedding of `s.includes(sub)`. -/
def jsIncludes (s sub : String) : Bool :=
  containsSub sub.data s.data

/-- Embedding of `s.startsWith(pre)` (used for the `hk` / `us.` class
tests, written `lowerCode.startsWith(…)` in the source). -/
def jsStartsWith (s pre : String) : Bool :=
  pre.data.isPrefixOf s.data

/-- Embedding of `s.substring(n)`. -/
def jsSubstringFrom (s : String) (n : Nat) : String :=
  String.mk (s.data.drop n)

/-! ### Quote records and the two dialect parsers (src/stockDataService.ts)

`updateTime` (the wall-clock fallback formatting) and `changePercent`
(fixed-point decimal string formatting) are presentation formatting,
referenced by no claim, and are omitted from the embedded record. -/

/-- The canonical quote record (`StockInfo`), restricted to the purely
computed fields. -/
structure StockInfo where
  code : String
  name : String
  currentPrice : ℚ
  yesterdayClose : ℚ
  todayOpen : ℚ
  todayHigh : ℚ
  todayLow : ℚ
  changeAmount : ℚ
  volume : ℚ
  turnover : ℚ
  dataTimestamp : String
  deriving DecidableEq

/-- Embedding of `parseTencentData` (src/stockDataService.ts lines 60-90):
Dialect B positional decoding of one `~`-separated record. -/
def parseTencentData (code : String) (parts : List JSField) : StockInfo :=
  let name := jsOrStr (fieldAt parts 1).str code
  let currentPrice := jsOrNum (fieldAt parts 3) 0
  let yesterdayClose := jsOrNum (fieldAt parts 4) 0
  let todayOpen := jsOrNum (fieldAt parts 5) 0
  let todayHigh := jsOrNum (fieldAt parts 33) currentPrice
  let todayLow := jsOrNum (fieldAt parts 34) currentPrice
  let lowerCode := jsToLower code
  let isHKStock := jsStartsWith lowerCode "hk"
  let isUSStock := jsStartsWith lowerCode "us."
  let volume := extractVolume parts isHKStock isUSStock
  let turnover := calculateTurnover parts currentPrice volume isHKStock isUSStock
  { code := code
    name := name
    currentPrice := currentPrice
    yesterdayClose := yesterdayClose
    todayOpen := todayOpen
    todayHigh := todayHigh
    todayLow := todayLow
    changeAmount := currentPrice - yesterdayClose
    volume := volume
    turnover := turnover
    dataTimestamp := (fieldAt parts 30).str }

/-- Embedding of `parseSinaStock` (src/stockDataService.ts lines 212-240):
Dialect A positional decoding of one `,`-separated record. -/
def parseSinaStock (code : String) (parts : List JSField) : StockInfo :=
  let name := jsOrStr (fieldAt parts 0).str code
  let todayOpen := jsOrNum (fieldAt parts 1) 0
  let yesterdayClose := jsOrNum (fieldAt parts 2) 0
  let currentPrice := jsOrNum (fieldAt parts 3) 0
  let todayHigh := jsOrNum (fieldAt parts 4) 0
  let todayLow := jsOrNum (fieldAt parts 5) 0
  let volume := jsOrNum (fieldAt parts 8) 0 / 100
  let turnover := adjustSinaTurnover (jsOrNum (fieldAt parts 9) 0) volume
    currentPrice
  let dataDate := (fieldAt parts 30).str
  let dataTime := (fieldAt parts 31).str
  { code := code
    name := name
    currentPrice := currentPrice
    yesterdayClose := yesterdayClose
    todayOpen := todayOpen
    todayHigh := todayHigh
    todayLow := todayLow
    changeAmount := currentPrice - yesterdayClose
    volume := volume
    turnover := turnover
    dataTimestamp :=
      if dataDate ≠ "" ∧ dataTime ≠ "" then dataDate ++ " " ++ dataTime
      else "" }

/-- Embedding of the per-code reply handling of `fetchFromTencent`
(src/stockDataService.ts lines 42-55): `none` payload models a reply whose
`="…"` wrapper regex did not match (or a transport failure, caught and
yielding no record); a matched payload is parsed whenever it has at least 5
fields — the name field is never inspected here. -/
def fetchFromTencentLine (code : String) (payload : Option (List JSField)) :
    Option StockInfo :=
  match payload with
  | none => none
  | some parts =>
    if 5 ≤ parts.length then some (parseTencentData code parts) else none

/-- Embedding of the per-line handling of `parseSinaData`
(src/stockDataService.ts lines 196-207): a matched payload with at least 4
fields is parsed; the name field is never inspected here. -/
def parseSinaLine (code : String) (payload : Option (List JSField)) :
    Option StockInfo :=
  match payload with
  | none => none
  | some parts =>
    if 4 ≤ parts.length then some (parseSinaStock code parts) else none

/-! ### Universe-list fetchers (src/stockDatabase.ts)

Only the per-record keep/drop decision after the wrapper regex matched is
embedded; the code and payload fields are its inputs. -/

/-- A universe entry (`StockItem`). -/
structure StockItem where
  code : String
  name : String
  number : String
  deriving DecidableEq

/-- Embedding of the record decision of `fetchBatch` (src/stockDatabase.ts
lines 32-46), shared by `fetchIndicesFromSina`: the Dialect A universe
fetcher keeps a record only when its trimmed name is truthy and contains
neither the not-exists marker nor the error marker. -/
def fetchBatchRecord (code : String) (parts : List String) : Option StockItem :=
  let name := jsTrim (parts.getD 0 "")
  if name ≠ "" ∧ ¬ jsIncludes name "不存在" = true ∧
      ¬ jsIncludes name "error" = true then
    some ⟨jsToLower code, name, jsSubstringFrom code 2⟩
  else none

/-- Embedding of the record decision of `fetchBJBatch` (src/stockDatabase.ts
lines 96-111; the same check appears in `fetchHKBatch` and `fetchUSBatch`):
the Dialect B universe fetchers keep a record only when its trimmed name is
truthy (the separate `name !== ''` test is subsumed) and does not contain
the `no qt` marker. -/
def fetchTencentListRecord (code : String) (parts : List String) :
    Option StockItem :=
  let name := jsTrim (parts.getD 1 "")
  if name ≠ "" ∧ ¬ jsIncludes name "no qt" = true then
    some ⟨jsToLower code, name, jsSubstringFrom code 2⟩
  else none

/-! ### The code canonicalizer (src/extension.ts, `normalizeStockCodes`)

The regular expressions are embedded as decidable matchers over the
character data, with the `i` flag expanded into explicit case variants.
The module state (`stockDatabaseLoaded`, `stockDatabase`) and the
`searchStocks` helper the CJK branch calls are passed explicitly. -/

/-- Embedding of `getStockPrefix` (src/utils.ts lines 604-613); the
argument comes from `parseInt` of a 6-digit string, hence `Nat`. -/
def getStockPrefix (num : Nat) : String :=
  if (600000 ≤ num ∧ num ≤ 605999) ∨ (688000 ≤ num ∧ num ≤ 689999) then "sh"
  else if num ≤ 6999 ∨ (300000 ≤ num ∧ num ≤ 302999) then "sz"
  else if 920000 ≤ num ∧ num ≤ 920999 then "bj"
  else "sz"

/-- ASCII decimal digit test (`\d` over the relevant inputs). -/
def isDigitChar (c : Char) : Bool := '0' ≤ c && c ≤ '9'

/-- ASCII upper-case letter test. -/
def isUpperChar (c : Char) : Bool := 'A' ≤ c && c ≤ 'Z'

/-- ASCII lower-case letter test. -/
def isLowerChar (c : Char) : Bool := 'a' ≤ c && c ≤ 'z'

/-- `[A-Z]` under the `i` flag. -/
def isAlphaChar (c : Char) : Bool := isUpperChar c || isLowerChar c

/-- `[A-Z0-9]` under the `i` flag. -/
def isAlnumChar (c : Char) : Bool := isAlphaChar c || isDigitChar c

/-- The `(sz|sh|bj)` alternative of `/^(sz|sh|bj)\d{6}$/i` on the first two
characters. -/
def aBoardTag (c1 c2 : Char) : Bool :=
  ((c1 == 's' || c1 == 'S') && (c2 == 'z' || c2 == 'Z' || c2 == 'h' || c2 == 'H')) ||
    ((c1 == 'b' || c1 == 'B') && (c2 == 'j' || c2 == 'J'))

/-- The `hk` head of `/^hk\d{5}$/i`. -/
def hkTag (c1 c2 : Char) : Bool :=
  (c1 == 'h' || c1 == 'H') && (c2 == 'k' || c2 == 'K')

/-- The `us` head of `/^us\.[A-Z0-9]+(?:\.[A-Z]+)?$/i`. -/
def usTag (c1 c2 : Char) : Bool :=
  (c1 == 'u' || c1 == 'U') && (c2 == 's' || c2 == 'S')

/-- Matcher for `/^(sz|sh|bj)\d{6}$/i` on character data. -/
def matchAChars : List Char → Bool
  | c1 :: c2 :: rest => aBoardTag c1 c2 && rest.length == 6 && rest.all isDigitChar
  | _ => false

/-- Embedding of `trimmed.match(/^(sz|sh|bj)\d{6}$/i)` being non-null. -/
def matchAShare (s : String) : Bool := matchAChars s.data

/-- Matcher for `/^hk\d{5}$/i` on character data. -/
def matchHKChars : List Char → Bool
  | c1 :: c2 :: rest => hkTag c1 c2 && rest.length == 5 && rest.all isDigitChar
  | _ => false

/-- Embedding of `trimmed.match(/^hk\d{5}$/i)` being non-null. -/
def matchHK (s : String) : Bool := matchHKChars s.data

/-- The `[A-Z0-9]+(?:\.[A-Z]+)?$` body after `us.`: a non-empty
alphanumeric run, then nothing or a dot followed by a non-empty alphabetic
run (the character classes are disjoint from `.`, so the greedy split
agrees with the regex). -/
def usBodyCheck (rest : List Char) : Bool :=
  !(rest.takeWhile isAlnumChar).isEmpty &&
    ((rest.dropWhile isAlnumChar).isEmpty ||
      match rest.dropWhile isAlnumChar with
      | '.' :: sfx => !sfx.isEmpty && sfx.all isAlphaChar
      | _ => false)

/-- Matcher for `/^us\.[A-Z0-9]+(?:\.[A-Z]+)?$/i` on character data. -/
def matchUSChars : List Char → Bool
  | c1 :: c2 :: c3 :: rest => usTag c1 c2 && c3 == '.' && usBodyCheck rest
  | _ => false

/-- Embedding of `trimmed.match(/^us\.[A-Z0-9]+(?:\.[A-Z]+)?$/i)` being
non-null. -/
def matchUS (s : String) : Bool := matchUSChars s.data

/-- Embedding of `/^\d{6}$/.test(trimmed)`. -/
def matchDigits6 (s : String) : Bool :=
  s.data.length == 6 && s.data.all isDigitChar

/-- Embedding of `/[一-龥]/.test(trimmed)`. -/
def hasCJK (s : String) : Bool :=
  s.data.any (fun c => 0x4E00 ≤ c.toNat && c.toNat ≤ 0x9FA5)

/-- Embedding of `parseInt(trimmed)` for an all-digit string. -/
def parseNatDigits (l : List Char) : Nat :=
  l.foldl (fun a c => a * 10 + (c.toNat - 48)) 0

/-- Worker of the `[...new Set(normalized)]` deduplication: JavaScript
`Set` iteration order is insertion order, so the first occurrence of each
exact string is kept. -/
def jsSetDedupGo (seen : List String) : List String → List String
  | [] => []
  | x :: xs =>
    if x ∈ seen then jsSetDedupGo seen xs else x :: jsSetDedupGo (x :: seen) xs

/-- Embedding of `[...new Set(normalized)]`. -/
def jsSetDedup (l : List String) : List String := jsSetDedupGo [] l

/-- Modelled from the spec's words, for comparison: deduplicate a list
keeping the first occurrence of each element, preserving first-seen
order. -/
def firstSeenOrderDedup (l : List String) : List String :=
  l.foldl (fun acc x => if x ∈ acc then acc else acc ++ [x]) []

/-- Embedding of the accumulation loop of `normalizeStockCodes`
(src/extension.ts lines 550-599), before the final `Set` deduplication:
the five recognized shapes in priority order, then the CJK fuzzy-search
branch (top-ranked match when the database is loaded and non-empty, warn
and fall through otherwise), then verbatim passthrough. -/
def normalizeStockCodesRaw (search : String → List StockItem)
    (stockDatabaseLoaded : Bool) (stockDatabase : List StockItem) :
    List String → List String
  | [] => []
  | code :: rest =>
    let tail := normalizeStockCodesRaw search stockDatabaseLoaded stockDatabase
      rest
    if code = "" then tail
    else
      let trimmed := jsTrim code
      if trimmed = "" then tail
      else if matchAShare trimmed then jsToLower trimmed :: tail
      else if matchHK trimmed then jsToLower trimmed :: tail
      else if matchUS trimmed then jsToLower trimmed :: tail
      else if matchDigits6 trimmed then
        ( getStockPrefix (parseNatDigits trimmed.data) ++ trimmed) :: tail
      else if hasCJK trimmed then
        if stockDatabaseLoaded ∧ 0 < stockDatabase.length then
          match search trimmed with
          | r :: _ => r.code :: tail
          | [] => trimmed :: tail
        else trimmed :: tail
      else trimmed :: tail

/-- Embedding of `normalizeStockCodes` (src/extension.ts lines 550-601). -/
def normalizeStockCodes (search : String → List StockItem)
    (stockDatabaseLoaded : Bool) (stockDatabase : List StockItem)
    (codes : List String) : List String :=
  jsSetDedup
    (normalizeStockCodesRaw search stockDatabaseLoaded stockDatabase codes)

/-! ## Theorems -/

/-- Helper: the filtered results array lists exactly the non-null resolved
values, in task order. -/
theorem slot_filterMap_eq {β : Type} (tasks : List (JSTask β)) :
    (tasks.map slotValue).filterMap id = (resolvedValues tasks).filterMap id := by
  induction tasks with
  | nil => rfl
  | cons t ts ih =>
    cases t with
    | error e => simpa [resolvedValues, slotValue] using ih
    | ok v =>
      cases v with
      | none => simpa [resolvedValues, slotValue] using ih
      | some a => simpa [resolvedValues, slotValue] using ih

/-- C1 (counterexample): with a task that successfully resolves to the JS
value `null`, the output of `executeConcurrent` is not the list of
successful results — the second task resolved (to `null`) yet only one
result is returned. -/
theorem executeConcurrent_claim_counterexample :
    (executeConcurrent [Except.ok (some 0), Except.ok (none : Option ℕ)] 1).map
        Option.some ≠
      resolvedValues [Except.ok (some 0), Except.ok (none : Option ℕ)] ∧
    executeConcurrent [Except.ok (some 0), Except.ok (none : Option ℕ)] 1 = [0] ∧
    (resolvedValues [Except.ok (some 0), Except.ok (none : Option ℕ)]).length = 2 := by
  refine ⟨?_, ?_, ?_⟩ <;> decide

/-- C1 (amended): for every task list and concurrency cap at least 1,
`executeConcurrent` returns, in original submission order, exactly the
non-null values among the successfully resolved results; a task that throws
or rejects — or that resolves to `null` — contributes no result and never
prevents another task's result from appearing; an empty task list yields an
empty result. -/
theorem executeConcurrent_success_order {β : Type} (tasks : List (JSTask β))
    (concurrency : Nat) (hc : 1 ≤ concurrency) :
    executeConcurrent tasks concurrency = (resolvedValues tasks).filterMap id := by
  unfold executeConcurrent
  cases tasks with
  | nil => simp [resolvedValues]
  | cons t ts =>
    rw [if_neg (by simp [Nat.min_eq_zero_iff]; omega)]
    exact slot_filterMap_eq (t :: ts)

/-- C1 (witness): the amended theorem applied to four concrete tasks (a
success, a rejection, a null resolution, a success) under concurrency 2. -/
theorem executeConcurrent_success_order_witness :
    1 ≤ 2 ∧
      executeConcurrent
          [Except.ok (some 3), Except.error (), Except.ok none,
            Except.ok (some 7)] 2 =
        (resolvedValues
            [Except.ok (some 3), Except.error (), Except.ok (none : Option ℕ),
              Except.ok (some 7)]).filterMap id :=
  ⟨by decide,
    executeConcurrent_success_order
      [Except.ok (some 3), Except.error (), Except.ok none, Except.ok (some 7)]
      2 (by decide)⟩

/-- C10: the executor stores `null` for a failed slot and filters `null`
from the output, so a task that legitimately resolves to `null` is
indistinguishable from a failed task and its successful result is silently
omitted. -/
theorem executeConcurrent_null_collision :
    executeConcurrent [Except.ok (some 1), Except.ok (none : Option ℕ)] 3 =
        executeConcurrent [Except.ok (some 1), Except.error ()] 3 ∧
      executeConcurrent [Except.ok (some 1), Except.ok (none : Option ℕ)] 3 = [1] := by
  refine ⟨?_, ?_⟩ <;> decide

/-- C2: the embedded wall-clock gate opens the morning session at 09:30, not
09:15 — it returns `false` on a Friday at 09:15 (and 09:29) although the
spec's window `09:15–11:30` contains those minutes; the other boundaries
match the claim. -/
theorem isMarketOpen_excludes_0915 :
    isMarketOpen 5 9 15 = false ∧ isMarketOpen 5 9 29 = false ∧
      isMarketOpen 5 9 30 = true ∧ isMarketOpen 5 11 30 = true ∧
      isMarketOpen 5 11 31 = false ∧ isMarketOpen 5 13 0 = true ∧
      isMarketOpen 5 15 0 = true ∧ isMarketOpen 5 15 1 = false ∧
      isMarketOpen 6 10 0 = false ∧ isMarketOpen 0 10 0 = false := by
  decide

/-- C3: when field 37 parses to a positive value, a Hong-Kong or US record
uses it unchanged, and a domestic record multiplies it by 10000 exactly when
it is below 1000, using it unchanged otherwise. -/
theorem calculateTurnover_field37_scaling (parts : List JSField)
    (currentPrice volume : ℚ) (isHKStock isUSStock : Bool)
    (hpos : 0 < jsOrNum (fieldAt parts 37) 0) :
    ((isHKStock || isUSStock) = true →
        calculateTurnover parts currentPrice volume isHKStock isUSStock =
          jsOrNum (fieldAt parts 37) 0) ∧
      (isHKStock = false → isUSStock = false →
        jsOrNum (fieldAt parts 37) 0 < 1000 →
        calculateTurnover parts currentPrice volume isHKStock isUSStock =
          jsOrNum (fieldAt parts 37) 0 * 10000) ∧
      (isHKStock = false → isUSStock = false →
        1000 ≤ jsOrNum (fieldAt parts 37) 0 →
        calculateTurnover parts currentPrice volume isHKStock isUSStock =
          jsOrNum (fieldAt parts 37) 0) := by
  set tv := jsOrNum (fieldAt parts 37) 0 with htv
  refine ⟨?_, ?_, ?_⟩
  · intro hclass
    have hraw : calculateTurnoverRaw parts isHKStock isUSStock = tv := by
      unfold calculateTurnoverRaw
      rw [← htv, if_pos hpos, if_pos hclass]
    unfold calculateTurnover
    rw [hraw, if_neg (fun h => absurd h.1 (ne_of_gt hpos))]
  · intro hhk hus hlt
    have hraw : calculateTurnoverRaw parts isHKStock isUSStock = tv * 10000 := by
      unfold calculateTurnoverRaw
      rw [← htv, if_pos hpos, hhk, hus]
      simp only [Bool.or_self, Bool.false_eq_true, if_false]
      rw [if_pos hlt]
    have hne : tv * 10000 ≠ 0 := ne_of_gt (mul_pos hpos (by norm_num))
    unfold calculateTurnover
    rw [hraw, if_neg (fun h => absurd h.1 hne)]
  · intro hhk hus hge
    have hraw : calculateTurnoverRaw parts isHKStock isUSStock = tv := by
      unfold calculateTurnoverRaw
      rw [← htv, if_pos hpos, hhk, hus]
      simp only [Bool.or_self, Bool.false_eq_true, if_false]
      rw [if_neg (not_lt.mpr hge)]
    unfold calculateTurnover
    rw [hraw, if_neg (fun h => absurd h.1 (ne_of_gt hpos))]

/-- C3 (witness): the theorem applied to a domestic record whose field 37 is
the wire string "500" (price 10.5, volume 50000); by its second conjunct the
turnover is 500 × 10000 = 5,000,000. -/
theorem calculateTurnover_field37_scaling_witness :
    0 < jsOrNum (fieldAt (List.replicate 37 emptyField ++
        [JSField.mk "500" (some 500)]) 37) 0 ∧
      calculateTurnover (List.replicate 37 emptyField ++
          [JSField.mk "500" (some 500)]) 10.5 50000 false false =
        jsOrNum (fieldAt (List.replicate 37 emptyField ++
          [JSField.mk "500" (some 500)]) 37) 0 * 10000 :=
  ⟨by decide,
    ((calculateTurnover_field37_scaling
        (List.replicate 37 emptyField ++ [JSField.mk "500" (some 500)])
        10.5 50000 false false (by decide)).2.1) rfl rfl (by decide)⟩

/-- C4: feeding the estimate `volume × 100 × price` back to
`adjustSinaTurnover` as the raw turnover (ratio exactly 1) triggers neither
the ×10000 branch nor the ÷100 branch: the value is returned unchanged. -/
theorem adjustSinaTurnover_fixed_on_estimate (volume currentPrice : ℚ)
    (hv : 0 < volume) (hp : 0 < currentPrice) :
    adjustSinaTurnover (volume * 100 * currentPrice) volume currentPrice =
      volume * 100 * currentPrice := by
  have hest : 0 < volume * 100 * currentPrice := by positivity
  unfold adjustSinaTurnover
  rw [if_pos ⟨hest, hv, hp⟩]
  simp only [div_self (ne_of_gt hest)]
  rw [if_neg (fun h => absurd h.1 (by norm_num)), if_neg (by norm_num)]

/-- C4 (witness): the theorem applied at volume 1, price 1. -/
theorem adjustSinaTurnover_fixed_on_estimate_witness :
    (0 : ℚ) < 1 ∧
      adjustSinaTurnover (1 * 100 * 1) 1 1 = 1 * 100 * 1 :=
  ⟨by decide, adjustSinaTurnover_fixed_on_estimate 1 1 (by decide) (by decide)⟩

/-- Helper: taking decimal digits and re-evaluating them is the identity. -/
theorem ofDigits_natDigitsAux :
    ∀ fuel n, n ≤ fuel → ofDigits (natDigitsAux fuel n) = n := by
  intro fuel
  induction fuel with
  | zero =>
    intro n hn
    have h0 : n = 0 := by omega
    subst h0
    rfl
  | succ f ih =>
    intro n hn
    cases n with
    | zero => rfl
    | succ m =>
      have hdiv : (m + 1) / 10 ≤ f := by
        have := Nat.div_lt_self (Nat.succ_pos m) (by norm_num : 1 < 10)
        omega
      simp only [natDigitsAux, ofDigits]
      rw [ih _ hdiv]
      exact Nat.mod_add_div (m + 1) 10

/-- Helper: every decimal digit produced is below 10. -/
theorem natDigitsAux_lt_ten :
    ∀ fuel n d, d ∈ natDigitsAux fuel n → d < 10 := by
  intro fuel
  induction fuel with
  | zero =>
    intro n d hd
    cases n <;> simp [natDigitsAux] at hd
  | succ f ih =>
    intro n d hd
    cases n with
    | zero => simp [natDigitsAux] at hd
    | succ m =>
      simp only [natDigitsAux, List.mem_cons] at hd
      rcases hd with h | h
      · subst h
        exact Nat.mod_lt _ (by norm_num)
      · exact ih _ _ h

/-- Helper: a positive number's most significant decimal digit is nonzero. -/
theorem natDigitsAux_msd :
    ∀ fuel n, 0 < n → n ≤ fuel →
      ∃ d ds, (natDigitsAux fuel n).reverse = d :: ds ∧ 0 < d ∧ d < 10 := by
  intro fuel
  induction fuel with
  | zero =>
    intro n h1 h2
    omega
  | succ f ih =>
    intro n h1 h2
    cases n with
    | zero => omega
    | succ m =>
      by_cases hq : (m + 1) / 10 = 0
      · have hlt : m + 1 < 10 := by
          by_contra hge
          push_neg at hge
          have := Nat.div_pos hge (by norm_num : (0:Nat) < 10)
          omega
        refine ⟨(m + 1) % 10, [], ?_, by omega, by omega⟩
        simp [natDigitsAux, hq]
      · obtain ⟨d, ds, hrev, hd0, hd10⟩ :=
          ih ((m + 1) / 10) (Nat.pos_of_ne_zero hq)
            (by
              have := Nat.div_lt_self (Nat.succ_pos m) (by norm_num : 1 < 10)
              omega)
        refine ⟨d, ds ++ [(m + 1) % 10], ?_, hd0, hd10⟩
        simp [natDigitsAux, hrev]

/-- Helper: the digit-to-character table is injective on digits. -/
theorem digitChar_inj :
    ∀ d, d < 10 → ∀ e, e < 10 → digitChar d = digitChar e → d = e := by
  decide

/-- Helper: a nonzero digit's character is not the zero character. -/
theorem digitChar_ne_zeroChar : ∀ d, d < 10 → 0 < d → digitChar d ≠ '0' := by
  decide

/-- Helper: a digit character is never the minus sign. -/
theorem digitChar_ne_dash : ∀ d, d < 10 → digitChar d ≠ '-' := by
  decide

/-- Helper: mapping the digit table over digit lists is injective. -/
theorem map_digitChar_inj :
    ∀ l1 l2 : List Nat, (∀ x ∈ l1, x < 10) → (∀ x ∈ l2, x < 10) →
      l1.map digitChar = l2.map digitChar → l1 = l2 := by
  intro l1
  induction l1 with
  | nil =>
    intro l2 _ _ h
    cases l2 <;> simp_all
  | cons x xs ih =>
    intro l2 h1 h2 h
    cases l2 with
    | nil => simp at h
    | cons y ys =>
      simp only [List.map_cons, List.cons.injEq] at h
      have hx := digitChar_inj x (h1 x (by simp)) y (h2 y (by simp)) h.1
      have hxs := ih ys (fun z hz => h1 z (by simp [hz]))
        (fun z hz => h2 z (by simp [hz])) h.2
      simp [hx, hxs]

/-- Helper: strings with equal character data are equal. -/
theorem string_data_inj {s t : String} (h : s.data = t.data) : s = t := by
  cases s
  cases t
  simp_all

/-- Helper: the character data of a constructed string. -/
theorem string_mk_data (l : List Char) : (String.mk l).data = l := rfl

/-- Helper: shape of the decimal string of a positive number — a nonzero
leading digit character. -/
theorem natStr_pos_data (n : Nat) (hn : 0 < n) :
    ∃ d ds, (natStr n).data = digitChar d :: ds ∧ 0 < d ∧ d < 10 := by
  obtain ⟨d, ds, hrev, hd0, hd10⟩ := natDigitsAux_msd n n hn le_rfl
  refine ⟨d, ds.map digitChar, ?_, hd0, hd10⟩
  simp [natStr, hn.ne', natDigits, hrev, string_mk_data]

/-- Helper: JavaScript decimal rendering of non-negative integers is
injective. -/
theorem natStr_inj {m n : Nat} (h : natStr m = natStr n) : m = n := by
  rcases Nat.eq_zero_or_pos m with hm | hm
  · rcases Nat.eq_zero_or_pos n with hn | hn
    · omega
    · exfalso
      obtain ⟨d, ds, hdata, hd0, hd10⟩ := natStr_pos_data n hn
      subst hm
      have hzero : (natStr 0).data = ['0'] := rfl
      rw [h, hdata] at hzero
      exact digitChar_ne_zeroChar d hd10 hd0 (List.head_eq_of_cons_eq hzero)
  · rcases Nat.eq_zero_or_pos n with hn | hn
    · exfalso
      obtain ⟨d, ds, hdata, hd0, hd10⟩ := natStr_pos_data m hm
      subst hn
      have hzero : (natStr 0).data = ['0'] := rfl
      rw [← h, hdata] at hzero
      exact digitChar_ne_zeroChar d hd10 hd0 (List.head_eq_of_cons_eq hzero)
    · have hdata : (natDigits m).reverse.map digitChar =
          (natDigits n).reverse.map digitChar := by
        have hd := congrArg String.data h
        simpa [natStr, hm.ne', hn.ne', string_mk_data] using hd
      have hrev := map_digitChar_inj _ _
        (fun x hx => natDigitsAux_lt_ten m m x (List.mem_reverse.mp hx))
        (fun x hx => natDigitsAux_lt_ten n n x (List.mem_reverse.mp hx)) hdata
      have hdig : natDigits m = natDigits n := by
        have := congrArg List.reverse hrev
        simpa using this
      calc m = ofDigits (natDigits m) := (ofDigits_natDigitsAux m m le_rfl).symm
        _ = ofDigits (natDigits n) := by rw [hdig]
        _ = n := ofDigits_natDigitsAux n n le_rfl

/-- Helper: character data of the rendering of a negative integer. -/
theorem intStr_negSucc_data (n : Nat) :
    (intStr (Int.negSucc n)).data = '-' :: (natStr (n + 1)).data := by
  show (("-" : String) ++ natStr (n + 1)).data = _
  rw [String.data_append]
  rfl

/-- Helper: JavaScript decimal rendering of integers is injective. -/
theorem intStr_inj : Function.Injective intStr := by
  intro a b h
  cases a with
  | ofNat m =>
    cases b with
    | ofNat n => exact congrArg Int.ofNat (natStr_inj h)
    | negSucc n =>
      exfalso
      have hd := congrArg String.data h
      rw [intStr_negSucc_data] at hd
      rcases Nat.eq_zero_or_pos m with hm | hm
      · subst hm
        have : (['0'] : List Char) = '-' :: (natStr (n + 1)).data := hd
        simpa using List.head_eq_of_cons_eq this
      · obtain ⟨d, ds, hdata, hd0, hd10⟩ := natStr_pos_data m hm
        rw [show (intStr (Int.ofNat m)).data = (natStr m).data from rfl, hdata]
          at hd
        exact digitChar_ne_dash d hd10 (List.head_eq_of_cons_eq hd)
  | negSucc m =>
    cases b with
    | ofNat n =>
      exfalso
      have hd := congrArg String.data h
      rw [intStr_negSucc_data] at hd
      rcases Nat.eq_zero_or_pos n with hn | hn
      · subst hn
        have : ('-' : Char) :: (natStr (m + 1)).data = ['0'] := hd
        simpa using List.head_eq_of_cons_eq this
      · obtain ⟨d, ds, hdata, hd0, hd10⟩ := natStr_pos_data n hn
        rw [show (intStr (Int.ofNat n)).data = (natStr n).data from rfl, hdata]
          at hd
        exact digitChar_ne_dash d hd10 (List.head_eq_of_cons_eq hd).symm
    | negSucc n =>
      have hd := congrArg String.data h
      rw [intStr_negSucc_data, intStr_negSucc_data] at hd
      have hmn := natStr_inj (string_data_inj (List.tail_eq_of_cons_eq hd))
      exact congrArg Int.negSucc (by omega)

/-- Helper: leading zero padding is transparent to `dropWhile`. -/
theorem dropWhile_replicate_zero (k : Nat) :
    (List.replicate k '0').dropWhile (fun c => c == '0') = [] := by
  induction k with
  | zero => rfl
  | succ m ih => simpa [List.replicate_succ, List.dropWhile_cons] using ih

/-- Helper: stripping padding recovers a list whose head is not a zero
character. -/
theorem recover_pad_of_head {l : List Char} {c : Char} {rest : List Char}
    (hl : l = c :: rest) (hc : (c == '0') = false) (k : Nat) :
    recoverChars (List.replicate k '0' ++ l) = l := by
  subst hl
  simp [recoverChars, List.dropWhile_append, dropWhile_replicate_zero,
    List.dropWhile_cons, hc]

/-- Helper: stripping the `padStart` padding recovers the rendered
integer. -/
theorem recoverChars_pad (i : Int) (k : Nat) :
    recoverChars (List.replicate k '0' ++ (intStr i).data) = (intStr i).data := by
  cases i with
  | ofNat n =>
    cases n with
    | zero =>
      have h0 : (intStr (Int.ofNat 0)).data = ['0'] := rfl
      rw [h0]
      simp [recoverChars, List.dropWhile_append, dropWhile_replicate_zero,
        List.dropWhile_cons]
    | succ m =>
      obtain ⟨d, ds, hdata, hd0, hd10⟩ := natStr_pos_data (m + 1) (Nat.succ_pos m)
      refine recover_pad_of_head hdata ?_ k
      simpa using digitChar_ne_zeroChar d hd10 hd0
  | negSucc n =>
    exact recover_pad_of_head (intStr_negSucc_data n) (by decide) k

/-- Helper: padding two rendered integers to width 6 keeps them
distinguishable. -/
theorem jsPadStart_intStr_inj {a b : Int}
    (h : jsPadStart (intStr a) 6 '0' = jsPadStart (intStr b) 6 '0') : a = b := by
  apply intStr_inj
  apply string_data_inj
  have hdata := congrArg String.data h
  simp only [jsPadStart, string_mk_data] at hdata
  have hrec := congrArg recoverChars hdata
  rwa [recoverChars_pad a, recoverChars_pad b] at hrec

/-- Helper: each generated code determines its integer. -/
theorem formatCode_inj (pfx : String) : Function.Injective (formatCode pfx) := by
  intro a b h
  have hdata := congrArg String.data h
  simp only [formatCode, String.data_append] at hdata
  exact jsPadStart_intStr_inj (string_data_inj (List.append_cancel_left hdata))

/-- Helper: the generation loop enumerates consecutive integers. -/
theorem generateCodesLoop_eq (pfx : String) :
    ∀ fuel (i : Int), generateCodesLoop pfx fuel i =
      (List.range fuel).map (fun k : Nat => formatCode pfx (i + (k : Int))) := by
  intro fuel
  induction fuel with
  | zero => intro i; rfl
  | succ f ih =>
    intro i
    rw [List.range_succ_eq_map]
    simp only [generateCodesLoop, List.map_cons, List.map_map]
    congr 1
    · simp
    · rw [ih (i + 1)]
      apply List.map_congr_left
      intro a _
      simp only [Function.comp_apply]
      congr 1
      push_cast
      ring

/-- C5: `generateCodes` returns exactly one code per integer of
`[start, stop]` in ascending order — the code being the prefix followed by
the integer rendered and zero-padded to width 6 — so the length is
`stop - start + 1`, all codes are distinct, and an inverted range
(`start > stop`) yields the empty list. -/
theorem generateCodes_range_spec (pfx : String) (start stop : Int) :
    generateCodes pfx start stop =
        (List.range (stop + 1 - start).toNat).map
          (fun k : Nat => formatCode pfx (start + (k : Int))) ∧
      (generateCodes pfx start stop).Nodup ∧
      (stop < start → generateCodes pfx start stop = []) := by
  have hmap : generateCodes pfx start stop =
      (List.range (stop + 1 - start).toNat).map
        (fun k : Nat => formatCode pfx (start + (k : Int))) :=
    generateCodesLoop_eq pfx _ start
  refine ⟨hmap, ?_, ?_⟩
  · rw [hmap]
    refine (List.nodup_range _).map ?_
    intro a b hab
    have := formatCode_inj pfx hab
    omega
  · intro hlt
    unfold generateCodes
    have h0 : (stop + 1 - start).toNat = 0 := Int.toNat_eq_zero.mpr (by omega)
    rw [h0]
    rfl

/-- C5 (witness): the theorem applied to the inverted range `[3, 2]`, plus
the spec's scenario `generateCodes("sz", 0, 2)`. -/
theorem generateCodes_range_spec_witness :
    (2 : Int) < 3 ∧ generateCodes "sz" 3 2 = [] ∧
      generateCodes "sz" 0 2 = ["sz000000", "sz000001", "sz000002"] :=
  ⟨by decide, (generateCodes_range_spec "sz" 3 2).2.2 (by decide), by decide⟩

/-- C6 (counterexample): the per-quote parsers do not drop a record whose
name field is the empty-string sentinel — both dialects keep the record,
with the name falling back to the requested code. -/
theorem quote_parsers_keep_sentinel_name_records :
    (fetchFromTencentLine "sz000001"
        (some [JSField.mk "1" (some 1), emptyField, emptyField,
          JSField.mk "10" (some 10), JSField.mk "9" (some 9)])).isSome = true ∧
      (parseTencentData "sz000001"
          [JSField.mk "1" (some 1), emptyField, emptyField,
            JSField.mk "10" (some 10), JSField.mk "9" (some 9)]).name =
        "sz000001" ∧
      (parseSinaLine "sz000001"
          (some [emptyField, JSField.mk "9" (some 9), JSField.mk "8" (some 8),
            JSField.mk "10" (some 10)])).isSome = true ∧
      (parseSinaStock "sz000001"
          [emptyField, JSField.mk "9" (some 9), JSField.mk "8" (some 8),
            JSField.mk "10" (some 10)]).name = "sz000001" := by
  refine ⟨?_, ?_, ?_, ?_⟩ <;> decide

/-- C6 (amended): in the universe-list fetchers a record whose trimmed name
is empty, or contains the vendor sentinel (`不存在` / `error` for Dialect A,
`no qt` for Dialect B), is dropped entirely; the per-quote parsers never
drop on the name — a record with an empty name field is kept, its name
defaulting to the requested code. -/
theorem sentinel_name_drop_rules (code : String) (parts : List String)
    (partsB : List JSField) :
    (jsTrim (parts.getD 0 "") = "" → fetchBatchRecord code parts = none) ∧
      (jsIncludes (jsTrim (parts.getD 0 "")) "不存在" = true →
        fetchBatchRecord code parts = none) ∧
      (jsIncludes (jsTrim (parts.getD 0 "")) "error" = true →
        fetchBatchRecord code parts = none) ∧
      (jsTrim (parts.getD 1 "") = "" → fetchTencentListRecord code parts = none) ∧
      (jsIncludes (jsTrim (parts.getD 1 "")) "no qt" = true →
        fetchTencentListRecord code parts = none) ∧
      (5 ≤ partsB.length → (fieldAt partsB 1).str = "" →
        fetchFromTencentLine code (some partsB) =
            some (parseTencentData code partsB) ∧
          (parseTencentData code partsB).name = code) ∧
      (4 ≤ partsB.length → (fieldAt partsB 0).str = "" →
        parseSinaLine code (some partsB) = some (parseSinaStock code partsB) ∧
          (parseSinaStock code partsB).name = code) := by
  refine ⟨?_, ?_, ?_, ?_, ?_, ?_, ?_⟩
  · intro h
    simp only [fetchBatchRecord]
    rw [if_neg (fun hc => hc.1 h)]
  · intro h
    simp only [fetchBatchRecord]
    rw [if_neg (fun hc => hc.2.1 h)]
  · intro h
    simp only [fetchBatchRecord]
    rw [if_neg (fun hc => hc.2.2 h)]
  · intro h
    simp only [fetchTencentListRecord]
    rw [if_neg (fun hc => hc.1 h)]
  · intro h
    simp only [fetchTencentListRecord]
    rw [if_neg (fun hc => hc.2 h)]
  · intro h5 h1
    exact ⟨by simp [fetchFromTencentLine, h5],
      by simp [parseTencentData, jsOrStr, h1]⟩
  · intro h4 h0
    exact ⟨by simp [parseSinaLine, h4],
      by simp [parseSinaStock, jsOrStr, h0]⟩

/-- C6 (witness): the amended theorem applied to concrete sentinel records
of each kind, and to quote records with empty name fields. -/
theorem sentinel_name_drop_rules_witness :
    fetchBatchRecord "sz000001" ["不存在"] = none ∧
      fetchBatchRecord "sz000001" ["FX error"] = none ∧
      fetchBatchRecord "sz000001" [""] = none ∧
      fetchTencentListRecord "bj920001" ["1", "no qt code"] = none ∧
      fetchTencentListRecord "bj920001" ["1", ""] = none ∧
      (parseTencentData "hk00700"
          [emptyField, emptyField, emptyField, emptyField, emptyField]).name =
        "hk00700" ∧
      (parseSinaStock "sh600000"
          [emptyField, emptyField, emptyField, emptyField]).name = "sh600000" :=
  ⟨(sentinel_name_drop_rules "sz000001" ["不存在"] []).2.1 (by decide),
    (sentinel_name_drop_rules "sz000001" ["FX error"] []).2.2.1 (by decide),
    (sentinel_name_drop_rules "sz000001" [""] []).1 (by decide),
    (sentinel_name_drop_rules "bj920001" ["1", "no qt code"] []).2.2.2.2.1
      (by decide),
    (sentinel_name_drop_rules "bj920001" ["1", ""] []).2.2.2.1 (by decide),
    ((sentinel_name_drop_rules "hk00700" []
        [emptyField, emptyField, emptyField, emptyField, emptyField]).2.2.2.2.2.1
      (by decide) (by decide)).2,
    ((sentinel_name_drop_rules "sh600000" []
        [emptyField, emptyField, emptyField, emptyField]).2.2.2.2.2.2
      (by decide) (by decide)).2⟩

/-- C7 (counterexample): in Dialect A a missing high field defaults to 0,
not to the parsed current price — here the current price parses to 10 while
the high comes out 0. -/
theorem parseSinaStock_high_default_zero :
    (parseSinaStock "sz000001"
        [JSField.mk "X" none, JSField.mk "9" (some 9), JSField.mk "8" (some 8),
          JSField.mk "10" (some 10)]).todayHigh = 0 ∧
      (parseSinaStock "sz000001"
          [JSField.mk "X" none, JSField.mk "9" (some 9),
            JSField.mk "8" (some 8), JSField.mk "10" (some 10)]).currentPrice =
        10 ∧
      (parseSinaStock "sz000001"
          [JSField.mk "X" none, JSField.mk "9" (some 9),
            JSField.mk "8" (some 8), JSField.mk "10" (some 10)]).todayHigh ≠
        (parseSinaStock "sz000001"
            [JSField.mk "X" none, JSField.mk "9" (some 9),
              JSField.mk "8" (some 8), JSField.mk "10" (some 10)]).currentPrice := by
  refine ⟨?_, ?_, ?_⟩ <;> decide

/-- C7 (amended): an absent or unparsable numeric field defaults to 0, and
high/low default to the parsed current price, in Dialect B only; in
Dialect A every absent or unparsable numeric field — including high and
low — defaults to 0 (volume included, on both dialects). -/
theorem numeric_field_default_rules (code : String) (parts : List JSField) :
    ((fieldAt parts 3).num = none →
        (parseTencentData code parts).currentPrice = 0) ∧
      ((fieldAt parts 4).num = none →
        (parseTencentData code parts).yesterdayClose = 0) ∧
      ((fieldAt parts 5).num = none →
        (parseTencentData code parts).todayOpen = 0) ∧
      ((fieldAt parts 33).num = none →
        (parseTencentData code parts).todayHigh =
          (parseTencentData code parts).currentPrice) ∧
      ((fieldAt parts 34).num = none →
        (parseTencentData code parts).todayLow =
          (parseTencentData code parts).currentPrice) ∧
      ((fieldAt parts 6).str = "" → (fieldAt parts 36).str = "" →
        (parseTencentData code parts).volume = 0) ∧
      ((fieldAt parts 1).num = none →
        (parseSinaStock code parts).todayOpen = 0) ∧
      ((fieldAt parts 2).num = none →
        (parseSinaStock code parts).yesterdayClose = 0) ∧
      ((fieldAt parts 3).num = none →
        (parseSinaStock code parts).currentPrice = 0) ∧
      ((fieldAt parts 4).num = none →
        (parseSinaStock code parts).todayHigh = 0) ∧
      ((fieldAt parts 5).num = none →
        (parseSinaStock code parts).todayLow = 0) ∧
      ((fieldAt parts 8).num = none → (parseSinaStock code parts).volume = 0) := by
  refine ⟨?_, ?_, ?_, ?_, ?_, ?_, ?_, ?_, ?_, ?_, ?_, ?_⟩
  · intro h
    simp [parseTencentData, jsOrNum, h]
  · intro h
    simp [parseTencentData, jsOrNum, h]
  · intro h
    simp [parseTencentData, jsOrNum, h]
  · intro h
    simp [parseTencentData, jsOrNum, h]
  · intro h
    simp [parseTencentData, jsOrNum, h]
  · intro h6 h36
    simp [parseTencentData, extractVolume, h6, h36]
  · intro h
    simp [parseSinaStock, jsOrNum, h]
  · intro h
    simp [parseSinaStock, jsOrNum, h]
  · intro h
    simp [parseSinaStock, jsOrNum, h]
  · intro h
    simp [parseSinaStock, jsOrNum, h]
  · intro h
    simp [parseSinaStock, jsOrNum, h]
  · intro h
    simp [parseSinaStock, jsOrNum, h]

/-- C7 (witness): the amended theorem applied to an entirely empty field
list, exercising every default. -/
theorem numeric_field_default_rules_witness :
    (parseTencentData "sz000001" []).currentPrice = 0 ∧
      (parseTencentData "sz000001" []).yesterdayClose = 0 ∧
      (parseTencentData "sz000001" []).todayOpen = 0 ∧
      (parseTencentData "sz000001" []).todayHigh =
        (parseTencentData "sz000001" []).currentPrice ∧
      (parseTencentData "sz000001" []).todayLow =
        (parseTencentData "sz000001" []).currentPrice ∧
      (parseTencentData "sz000001" []).volume = 0 ∧
      (parseSinaStock "sz000001" []).todayOpen = 0 ∧
      (parseSinaStock "sz000001" []).yesterdayClose = 0 ∧
      (parseSinaStock "sz000001" []).currentPrice = 0 ∧
      (parseSinaStock "sz000001" []).todayHigh = 0 ∧
      (parseSinaStock "sz000001" []).todayLow = 0 ∧
      (parseSinaStock "sz000001" []).volume = 0 := by
  obtain ⟨t1, t2, t3, t4, t5, t6, s1, s2, s3, s4, s5, s6⟩ :=
    numeric_field_default_rules "sz000001" []
  exact ⟨t1 (by decide), t2 (by decide), t3 (by decide), t4 (by decide),
    t5 (by decide), t6 (by decide) (by decide), s1 (by decide), s2 (by decide),
    s3 (by decide), s4 (by decide), s5 (by decide), s6 (by decide)⟩

/-- C8: Dialect B volume is the parsed field 6 when that field is
non-empty, else the parsed field 36, with the instrument-class flags
ignored (no scaling for any class); Dialect A volume is the parsed raw
field 8 divided by 100. -/
theorem volume_normalization_rules (parts : List JSField) (hk us : Bool)
    (hwf36 : (fieldAt parts 36).WF) :
    (extractVolume parts hk us =
        if (fieldAt parts 6).str ≠ "" then jsOrNum (fieldAt parts 6) 0
        else jsOrNum (fieldAt parts 36) 0) ∧
      extractVolume parts hk us = extractVolume parts false false ∧
      ∀ code, (parseSinaStock code parts).volume =
        jsOrNum (fieldAt parts 8) 0 / 100 := by
  refine ⟨?_, rfl, fun code => by simp [parseSinaStock]⟩
  unfold extractVolume
  by_cases h6 : (fieldAt parts 6).str ≠ ""
  · rw [if_pos h6, if_pos h6]
  · rw [if_neg h6, if_neg h6]
    by_cases h36 : (fieldAt parts 36).str ≠ ""
    · rw [if_pos h36]
    · rw [if_neg h36]
      simp [jsOrNum, hwf36 (not_not.mp h36)]

/-- C8 (witness): the theorem applied to an empty field list with both
class flags set. -/
theorem volume_normalization_rules_witness :
    (extractVolume [] true true =
        if (fieldAt [] 6).str ≠ "" then jsOrNum (fieldAt [] 6) 0
        else jsOrNum (fieldAt [] 36) 0) ∧
      extractVolume [] true true = extractVolume [] false false ∧
      ∀ code, (parseSinaStock code []).volume =
        jsOrNum (fieldAt [] 8) 0 / 100 :=
  volume_normalization_rules [] true true (fun _ => rfl)

/-- Helper: decimal digit characters are not whitespace. -/
theorem digit_not_ws {c : Char} (h : isDigitChar c = true) : wsChar c = false := by
  simp only [isDigitChar, Bool.and_eq_true, decide_eq_true_eq] at h
  simp only [wsChar]
  rw [decide_eq_false_iff_not]
  rintro (rfl | rfl | rfl | rfl) <;> exact absurd h (by decide)

/-- Helper: letters are not whitespace. -/
theorem alpha_not_ws {c : Char} (h : isAlphaChar c = true) : wsChar c = false := by
  simp only [isAlphaChar, isUpperChar, isLowerChar, Bool.or_eq_true,
    Bool.and_eq_true, decide_eq_true_eq] at h
  simp only [wsChar]
  rw [decide_eq_false_iff_not]
  rintro (rfl | rfl | rfl | rfl) <;> exact absurd h (by decide)

/-- Helper: alphanumeric characters are not whitespace. -/
theorem alnum_not_ws {c : Char} (h : isAlnumChar c = true) : wsChar c = false := by
  simp only [isAlnumChar, Bool.or_eq_true] at h
  rcases h with h | h
  · exact alpha_not_ws h
  · exact digit_not_ws h

/-- Helper: `dropWhile` is the identity on whitespace-free lists. -/
theorem dropWhile_ws_eq_self {l : List Char}
    (h : ∀ c ∈ l, wsChar c = false) : l.dropWhile wsChar = l := by
  cases l with
  | nil => rfl
  | cons a t =>
    rw [List.dropWhile_cons, h a (List.mem_cons_self a t)]
    simp

/-- Helper: trimming is the identity on whitespace-free lists. -/
theorem trimChars_eq_self {l : List Char}
    (h : ∀ c ∈ l, wsChar c = false) : trimChars l = l := by
  unfold trimChars
  rw [dropWhile_ws_eq_self h,
    dropWhile_ws_eq_self (fun c hc => h c (List.mem_reverse.mp hc)),
    List.reverse_reverse]

/-- Helper: `trim` is the identity on whitespace-free strings. -/
theorem jsTrim_eq_self {s : String} (h : ∀ c ∈ s.data, wsChar c = false) :
    jsTrim s = s :=
  string_data_inj
    (by rw [show (jsTrim s).data = trimChars s.data from rfl, trimChars_eq_self h])

/-- Helper: the board-tag characters are not whitespace. -/
theorem aBoardTag_not_ws {c1 c2 : Char} (h : aBoardTag c1 c2 = true) :
    wsChar c1 = false ∧ wsChar c2 = false := by
  simp only [aBoardTag, Bool.or_eq_true, Bool.and_eq_true, beq_iff_eq,
    or_assoc] at h
  rcases h with ⟨rfl | rfl, rfl | rfl | rfl | rfl⟩ | ⟨rfl | rfl, rfl | rfl⟩ <;>
    exact ⟨rfl, rfl⟩

/-- Helper: the `hk` tag characters are not whitespace. -/
theorem hkTag_not_ws {c1 c2 : Char} (h : hkTag c1 c2 = true) :
    wsChar c1 = false ∧ wsChar c2 = false := by
  simp only [hkTag, Bool.or_eq_true, Bool.and_eq_true, beq_iff_eq] at h
  rcases h with ⟨rfl | rfl, rfl | rfl⟩ <;> exact ⟨rfl, rfl⟩

/-- Helper: the `us` tag characters are not whitespace. -/
theorem usTag_not_ws {c1 c2 : Char} (h : usTag c1 c2 = true) :
    wsChar c1 = false ∧ wsChar c2 = false := by
  simp only [usTag, Bool.or_eq_true, Bool.and_eq_true, beq_iff_eq] at h
  rcases h with ⟨rfl | rfl, rfl | rfl⟩ <;> exact ⟨rfl, rfl⟩

/-- Helper: the `us.` body contains no whitespace. -/
theorem usBodyCheck_not_ws {rest : List Char} (h : usBodyCheck rest = true) :
    ∀ c ∈ rest, wsChar c = false := by
  intro c hc
  simp only [usBodyCheck, Bool.and_eq_true, Bool.or_eq_true] at h
  obtain ⟨_, htail⟩ := h
  rw [← List.takeWhile_append_dropWhile (p := isAlnumChar) (l := rest)] at hc
  rcases List.mem_append.mp hc with hc1 | hc2
  · exact alnum_not_ws (List.mem_takeWhile_imp hc1)
  · rcases htail with hemp | hmatch
    · rw [List.isEmpty_iff.mp hemp] at hc2
      simp at hc2
    · rcases hd : rest.dropWhile isAlnumChar with _ | ⟨d, sfx⟩
      · rw [hd] at hc2
        simp at hc2
      · rw [hd] at hc2 hmatch
        split at hmatch
        · rename_i sfx2 heq
          obtain ⟨hd2, hsfx⟩ := List.cons.inj heq
          subst hd2
          simp only [Bool.and_eq_true] at hmatch
          rcases List.mem_cons.mp hc2 with rfl | hcm
          · rfl
          · exact alpha_not_ws
              (List.all_eq_true.mp hmatch.2 c (hsfx ▸ hcm))
        · exact absurd hmatch (by simp)

/-- Helper: characters of a code matching the domestic shape are not
whitespace. -/
theorem matchAShare_not_ws {s : String} (h : matchAShare s = true) :
    ∀ c ∈ s.data, wsChar c = false := by
  obtain ⟨l⟩ := s
  have h2 : matchAChars l = true := h
  intro c hc
  replace hc : c ∈ l := hc
  rcases l with _ | ⟨c1, _ | ⟨c2, rest⟩⟩
  · simp at hc
  · simp [matchAChars] at h2
  · simp only [matchAChars, Bool.and_eq_true] at h2
    obtain ⟨⟨htag, _⟩, hdig⟩ := h2
    rcases List.mem_cons.mp hc with rfl | hc2
    · exact (aBoardTag_not_ws htag).1
    rcases List.mem_cons.mp hc2 with rfl | hc3
    · exact (aBoardTag_not_ws htag).2
    · exact digit_not_ws (List.all_eq_true.mp hdig c hc3)

/-- Helper: characters of a code matching the Hong-Kong shape are not
whitespace. -/
theorem matchHK_not_ws {s : String} (h : matchHK s = true) :
    ∀ c ∈ s.data, wsChar c = false := by
  obtain ⟨l⟩ := s
  have h2 : matchHKChars l = true := h
  intro c hc
  replace hc : c ∈ l := hc
  rcases l with _ | ⟨c1, _ | ⟨c2, rest⟩⟩
  · simp at hc
  · simp [matchHKChars] at h2
  · simp only [matchHKChars, Bool.and_eq_true] at h2
    obtain ⟨⟨htag, _⟩, hdig⟩ := h2
    rcases List.mem_cons.mp hc with rfl | hc2
    · exact (hkTag_not_ws htag).1
    rcases List.mem_cons.mp hc2 with rfl | hc3
    · exact (hkTag_not_ws htag).2
    · exact digit_not_ws (List.all_eq_true.mp hdig c hc3)

/-- Helper: characters of a code matching the US shape are not
whitespace. -/
theorem matchUS_not_ws {s : String} (h : matchUS s = true) :
    ∀ c ∈ s.data, wsChar c = false := by
  obtain ⟨l⟩ := s
  have h2 : matchUSChars l = true := h
  intro c hc
  replace hc : c ∈ l := hc
  rcases l with _ | ⟨c1, _ | ⟨c2, _ | ⟨c3, rest⟩⟩⟩
  · simp at hc
  · simp [matchUSChars] at h2
  · simp [matchUSChars] at h2
  · simp only [matchUSChars, Bool.and_eq_true, beq_iff_eq] at h2
    obtain ⟨⟨htag, hdot⟩, hbody⟩ := h2
    rcases List.mem_cons.mp hc with rfl | hc2
    · exact (usTag_not_ws htag).1
    rcases List.mem_cons.mp hc2 with rfl | hc3
    · exact (usTag_not_ws htag).2
    rcases List.mem_cons.mp hc3 with rfl | hc4
    · subst hdot
      rfl
    · exact usBodyCheck_not_ws hbody c hc4

/-- Helper: a Hong-Kong head is not a domestic board head. -/
theorem hkTag_not_aBoard {c1 c2 : Char} (h : hkTag c1 c2 = true) :
    aBoardTag c1 c2 = false := by
  simp only [hkTag, Bool.and_eq_true, Bool.or_eq_true, beq_iff_eq] at h
  rcases h.1 with rfl | rfl <;> rfl

/-- Helper: a US head is not a domestic board head. -/
theorem usTag_not_aBoard {c1 c2 : Char} (h : usTag c1 c2 = true) :
    aBoardTag c1 c2 = false := by
  simp only [usTag, Bool.and_eq_true, Bool.or_eq_true, beq_iff_eq] at h
  rcases h.1 with rfl | rfl <;> rfl

/-- Helper: a US head is not a Hong-Kong head. -/
theorem usTag_not_hkTag {c1 c2 : Char} (h : usTag c1 c2 = true) :
    hkTag c1 c2 = false := by
  simp only [usTag, Bool.and_eq_true, Bool.or_eq_true, beq_iff_eq] at h
  rcases h.1 with rfl | rfl <;> rfl

/-- Helper: the Hong-Kong shape excludes the domestic shape. -/
theorem matchHK_not_A {s : String} (h : matchHK s = true) :
    matchAShare s = false := by
  obtain ⟨l⟩ := s
  have h2 : matchHKChars l = true := h
  show matchAChars l = false
  rcases l with _ | ⟨c1, _ | ⟨c2, rest⟩⟩
  · rfl
  · rfl
  · simp only [matchHKChars, Bool.and_eq_true] at h2
    simp only [matchAChars]
    rw [hkTag_not_aBoard h2.1.1]
    rfl

/-- Helper: the US shape excludes the domestic shape. -/
theorem matchUS_not_A {s : String} (h : matchUS s = true) :
    matchAShare s = false := by
  obtain ⟨l⟩ := s
  have h2 : matchUSChars l = true := h
  show matchAChars l = false
  rcases l with _ | ⟨c1, _ | ⟨c2, _ | ⟨c3, rest⟩⟩⟩
  · rfl
  · rfl
  · simp [matchUSChars] at h2
  · simp only [matchUSChars, Bool.and_eq_true] at h2
    simp only [matchAChars]
    rw [usTag_not_aBoard h2.1.1]
    rfl

/-- Helper: the US shape excludes the Hong-Kong shape. -/
theorem matchUS_not_HK {s : String} (h : matchUS s = true) :
    matchHK s = false := by
  obtain ⟨l⟩ := s
  have h2 : matchUSChars l = true := h
  show matchHKChars l = false
  rcases l with _ | ⟨c1, _ | ⟨c2, _ | ⟨c3, rest⟩⟩⟩
  · rfl
  · rfl
  · simp [matchUSChars] at h2
  · simp only [matchUSChars, Bool.and_eq_true] at h2
    simp only [matchHKChars]
    rw [usTag_not_hkTag h2.1.1]
    rfl

/-- Helper: membership in the dedup worker's output. -/
theorem mem_jsSetDedupGo :
    ∀ (l seen : List String) (x : String),
      x ∈ jsSetDedupGo seen l ↔ x ∈ l ∧ x ∉ seen := by
  intro l
  induction l with
  | nil =>
    intro seen x
    simp [jsSetDedupGo]
  | cons y ys ih =>
    intro seen x
    have hxy : x = y → (x ∈ seen ↔ y ∈ seen) := fun h => by rw [h]
    by_cases hy : y ∈ seen
    · rw [jsSetDedupGo, if_pos hy, ih]
      simp only [List.mem_cons]
      constructor
      · rintro ⟨h1, h2⟩
        exact ⟨Or.inr h1, h2⟩
      · rintro ⟨h1 | h1, h2⟩
        · exact absurd ((hxy h1).mpr hy) h2
        · exact ⟨h1, h2⟩
    · rw [jsSetDedupGo, if_neg hy]
      simp only [List.mem_cons, ih]
      constructor
      · rintro (rfl | ⟨h1, h2⟩)
        · exact ⟨Or.inl rfl, hy⟩
        · exact ⟨Or.inr h1, fun hx => h2 (Or.inr hx)⟩
      · rintro ⟨h1 | h1, h2⟩
        · exact Or.inl h1
        · by_cases hxy2 : x = y
          · exact Or.inl hxy2
          · exact Or.inr ⟨h1, fun hx => hx.elim hxy2 h2⟩

/-- Helper: the dedup worker's output has no duplicates. -/
theorem nodup_jsSetDedupGo : ∀ (l seen : List String), (jsSetDedupGo seen l).Nodup := by
  intro l
  induction l with
  | nil =>
    intro seen
    simp [jsSetDedupGo]
  | cons y ys ih =>
    intro seen
    by_cases hy : y ∈ seen
    · rw [jsSetDedupGo, if_pos hy]
      exact ih seen
    · rw [jsSetDedupGo, if_neg hy]
      refine List.nodup_cons.mpr ⟨?_, ih (y :: seen)⟩
      intro hmem
      exact ((mem_jsSetDedupGo ys (y :: seen) y).mp hmem).2
        (List.mem_cons_self y seen)

/-- Helper: the dedup worker's output is a sublist (order preserved). -/
theorem jsSetDedupGo_sublist : ∀ (l seen : List String), List.Sublist (jsSetDedupGo seen l) l := by
  intro l
  induction l with
  | nil =>
    intro seen
    simp [jsSetDedupGo]
  | cons y ys ih =>
    intro seen
    by_cases hy : y ∈ seen
    · rw [jsSetDedupGo, if_pos hy]
      exact (ih seen).cons y
    · rw [jsSetDedupGo, if_neg hy]
      exact (ih (y :: seen)).cons₂ y

/-- Helper: the `Set`-based dedup equals the spec's first-seen fold. -/
theorem jsSetDedupGo_eq_foldl :
    ∀ (l seen acc : List String), (∀ x, x ∈ seen ↔ x ∈ acc) →
      acc ++ jsSetDedupGo seen l =
        l.foldl (fun a x => if x ∈ a then a else a ++ [x]) acc := by
  intro l
  induction l with
  | nil =>
    intro seen acc hinv
    simp [jsSetDedupGo]
  | cons y ys ih =>
    intro seen acc hinv
    rw [List.foldl_cons, jsSetDedupGo]
    by_cases hy : y ∈ seen
    · rw [if_pos hy, if_pos ((hinv y).mp hy)]
      exact ih seen acc hinv
    · rw [if_neg hy, if_neg (fun hc => hy ((hinv y).mpr hc))]
      rw [show acc ++ y :: jsSetDedupGo (y :: seen) ys =
        (acc ++ [y]) ++ jsSetDedupGo (y :: seen) ys by simp]
      refine ih (y :: seen) (acc ++ [y]) (fun x => ?_)
      simp only [List.mem_cons, List.mem_append, List.mem_singleton, hinv x]
      tauto

/-- Helper: `[...new Set(l)]` is the first-seen-order deduplication. -/
theorem jsSetDedup_eq_firstSeen (l : List String) :
    jsSetDedup l = firstSeenOrderDedup l := by
  have h := jsSetDedupGo_eq_foldl l [] [] (by simp)
  simpa [jsSetDedup, firstSeenOrderDedup] using h

/-- Helper: a singleton canonical-shape input normalizes to its lower-cased
self. -/
theorem normalizeStockCodes_single_shape (search : String → List StockItem)
    (loaded : Bool) (db : List StockItem) {s : String}
    (h : matchAShare s = true ∨ matchHK s = true ∨ matchUS s = true) :
    normalizeStockCodes search loaded db [s] = [jsToLower s] := by
  have hws : ∀ c ∈ s.data, wsChar c = false := by
    rcases h with h | h | h
    · exact matchAShare_not_ws h
    · exact matchHK_not_ws h
    · exact matchUS_not_ws h
  have hne : ¬ s = "" := by
    intro he
    subst he
    rcases h with h | h | h <;>
      simp [matchAShare, matchAChars, matchHK, matchHKChars, matchUS,
        matchUSChars] at h
  have htrim : jsTrim s = s := jsTrim_eq_self hws
  have hraw : normalizeStockCodesRaw search loaded db [s] = [jsToLower s] := by
    rcases h with h | h | h
    · simp [normalizeStockCodesRaw, htrim, hne, h]
    · simp [normalizeStockCodesRaw, htrim, hne, matchHK_not_A h, h]
    · simp [normalizeStockCodesRaw, htrim, hne, matchUS_not_A h,
        matchUS_not_HK h, h]
  unfold normalizeStockCodes
  rw [hraw]
  simp [jsSetDedup, jsSetDedupGo]

/-- C9 (counterexample): two unrecognized passthrough inputs differing only
in letter case both survive normalization — the output is not deduplicated
case-insensitively. -/
theorem normalizeStockCodes_case_counterexample :
    normalizeStockCodes (fun _ => []) false [] ["ABC", "abc"] = ["ABC", "abc"] ∧
      ¬ ((normalizeStockCodes (fun _ => []) false [] ["ABC", "abc"]).map
          jsToLower).Nodup := by
  refine ⟨?_, ?_⟩ <;> decide

/-- C9 (amended): an input already in a canonical shape (domestic,
Hong Kong, or US) normalizes to itself lower-cased; the output list is
deduplicated by exact equality of the normalized strings — first-seen order
preserved, nothing dropped but duplicates — which is case-insensitive only
for inputs normalized to a recognized shape (those are lower-cased), not
for verbatim passthrough entries. -/
theorem normalizeStockCodes_roundtrip_dedup (search : String → List StockItem)
    (loaded : Bool) (db : List StockItem) :
    (∀ s : String,
        matchAShare s = true ∨ matchHK s = true ∨ matchUS s = true →
        normalizeStockCodes search loaded db [s] = [jsToLower s]) ∧
      ∀ codes : List String,
        normalizeStockCodes search loaded db codes =
            firstSeenOrderDedup
              (normalizeStockCodesRaw search loaded db codes) ∧
          (normalizeStockCodes search loaded db codes).Nodup ∧
          List.Sublist (normalizeStockCodes search loaded db codes)
            (normalizeStockCodesRaw search loaded db codes) ∧
          ∀ x ∈ normalizeStockCodesRaw search loaded db codes,
            x ∈ normalizeStockCodes search loaded db codes := by
  refine ⟨fun s h => normalizeStockCodes_single_shape search loaded db h,
    fun codes => ⟨jsSetDedup_eq_firstSeen _, nodup_jsSetDedupGo _ _,
      jsSetDedupGo_sublist _ _, fun x hx => ?_⟩⟩
  exact (mem_jsSetDedupGo _ [] x).mpr ⟨hx, by simp⟩

/-- C9 (witness): the amended theorem applied to a concrete mixed-case
canonical code of each shape. -/
theorem normalizeStockCodes_roundtrip_dedup_witness :
    normalizeStockCodes (fun _ => []) false [] ["SZ000001"] =
        [jsToLower "SZ000001"] ∧
      normalizeStockCodes (fun _ => []) false [] ["Hk00700"] =
        [jsToLower "Hk00700"] ∧
      normalizeStockCodes (fun _ => []) false [] ["us.BRK.A"] =
        [jsToLower "us.BRK.A"] ∧
      jsToLower "SZ000001" = "sz000001" ∧
      normalizeStockCodes (fun _ => []) false [] ["hk00700", "hk00700"] =
        firstSeenOrderDedup (normalizeStockCodesRaw (fun _ => []) false []
          ["hk00700", "hk00700"]) :=
  ⟨(normalizeStockCodes_roundtrip_dedup (fun _ => []) false []).1 "SZ000001"
      (Or.inl (by decide)),
    (normalizeStockCodes_roundtrip_dedup (fun _ => []) false []).1 "Hk00700"
      (Or.inr (Or.inl (by decide))),
    (normalizeStockCodes_roundtrip_dedup (fun _ => []) false []).1 "us.BRK.A"
      (Or.inr (Or.inr (by decide))),
    by decide,
    ((normalizeStockCodes_roundtrip_dedup (fun _ => []) false []).2
        ["hk00700", "hk00700"]).1⟩

end StockViewer
